import Mathlib

/-!
Verification of `My_NN_Implementation/NeuralNetwork.py`.

Shallow embedding conventions:
* numpy/cupy 2-D arrays are modelled by `NN.Mat`: a pair of dimensions together
  with a total entry function `ℕ → ℕ → ℚ`.  Floating point numbers are modelled
  by exact rationals; every arithmetic operation used by the source
  (add, sub, scalar multiply, elementwise multiply/divide, dot products,
  axis sums) is exact in ℚ.
* the transcendental sigmoid `1/(1+exp(-z))` cannot be a rational function, so
  every definition that needs it receives an abstract `sigma : ℚ → ℚ`
  parameter standing for the numeric sigmoid; the source lines using
  `cp.exp` are the only places this parameter is consulted.
* python dictionaries keyed by layer (`'W1'..'WL'`, `'b1'..'bL'`) are modelled
  by a `List (Mat × Mat)` whose index `l - 1` holds layer `l`; a dictionary
  lookup of an absent key (python `KeyError`) is modelled by `Except.error`.
* the random sources (`cp.random.randn`, `cp.random.rand`,
  `np.random.permutation`) are modelled by explicit function/list parameters
  supplying the drawn values.
-/

namespace NN

/-- A 2-D numeric array: stored dimensions plus a total entry function.
Entries outside `rows × cols` are modelling junk and never constrained. -/
@[ext]
structure Mat where
  rows : ℕ
  cols : ℕ
  entry : ℕ → ℕ → ℚ

instance : Inhabited Mat :=
  ⟨⟨0, 0, fun _ _ => 0⟩⟩

/-- Scalar multiplication `A * c` (elementwise). -/
def Mat.smul (A : Mat) (c : ℚ) : Mat :=
  ⟨A.rows, A.cols, fun i j => A.entry i j * c⟩

/-- Elementwise division by a scalar, `A / c`. -/
def Mat.divs (A : Mat) (c : ℚ) : Mat :=
  ⟨A.rows, A.cols, fun i j => A.entry i j / c⟩

/-- Elementwise sum of two arrays. -/
def Mat.add (A B : Mat) : Mat :=
  ⟨A.rows, A.cols, fun i j => A.entry i j + B.entry i j⟩

/-- Elementwise difference of two arrays. -/
def Mat.sub (A B : Mat) : Mat :=
  ⟨A.rows, A.cols, fun i j => A.entry i j - B.entry i j⟩

/-- `A.T`. -/
def Mat.transpose (A : Mat) : Mat :=
  ⟨A.cols, A.rows, fun i j => A.entry j i⟩

/-- `cp.dot(A, B)`: matrix product, contracting over `A.cols`. -/
def Mat.matMul (A B : Mat) : Mat :=
  ⟨A.rows, B.cols, fun i j => ∑ k ∈ Finset.range A.cols, A.entry i k * B.entry k j⟩

/-- `cp.sum(A, axis=1, keepdims=True)`: column vector of row sums. -/
def Mat.rowSum (A : Mat) : Mat :=
  ⟨A.rows, 1, fun i _ => ∑ k ∈ Finset.range A.cols, A.entry i k⟩

/-- `cp.sum(cp.square(A))`: sum of squares of all entries. -/
def Mat.sumSq (A : Mat) : ℚ :=
  ∑ i ∈ Finset.range A.rows, ∑ j ∈ Finset.range A.cols, (A.entry i j) ^ 2

/-- Source lines 41-45: `L2_norm` accumulated over `parameters['W1'..'WL']`.
The parameter dictionary is the list of `(W, b)` pairs for layers `1..L`. -/
def L2_norm (params : List (Mat × Mat)) : ℚ :=
  ∑ l ∈ Finset.range params.length, ((params.getD l default).1).sumSq

/-- Source line 45: `L2_regularization = (self.lambd/(2*m))*L2_norm`,
with `m = Y_true.shape[1]`. -/
def L2_regularization (lambd : ℚ) (m : ℕ) (params : List (Mat × Mat)) : ℚ :=
  (lambd / (2 * (m : ℚ))) * L2_norm params

/-- Source line 39: the cross-entropy part of `compute_cost`.
`cp.sum` over the whole `(rows, cols)` array; `log` is the abstract numeric
logarithm (transcendental, hence a parameter of the embedding). -/
def cross_entropy (log : ℚ → ℚ) (Y_true Y_pred : Mat) : ℚ :=
  -(1 / (Y_true.cols : ℚ)) *
    ∑ i ∈ Finset.range Y_true.rows, ∑ j ∈ Finset.range Y_true.cols,
      (Y_true.entry i j * log (Y_pred.entry i j) +
        (1 - Y_true.entry i j) * log (1 - Y_pred.entry i j))

/-- Source lines 27-48: `compute_cost` = cross-entropy + L2 regularization. -/
def compute_cost (log : ℚ → ℚ) (lambd : ℚ) (Y_true Y_pred : Mat)
    (params : List (Mat × Mat)) : ℚ :=
  cross_entropy log Y_true Y_pred + L2_regularization lambd Y_true.cols params

/-- Source lines 338-360, `linear_back`: given `dZ` and the cache
`(A_prev, W, b)`, with `m = A_prev.shape[1]`, returns
`(dA_prev, dW, db) = (W.T·dZ, dZ·A_prev.T/m + lambd*W/m, rowsum(dZ)/m)`. -/
def linear_back (lambd : ℚ) (dZ : Mat) (cache : Mat × Mat × Mat) :
    Mat × Mat × Mat :=
  let A_prev := cache.1
  let W := cache.2.1
  let m : ℚ := (A_prev.cols : ℚ)
  let dW := ((dZ.matMul A_prev.transpose).divs m).add ((W.smul lambd).divs m)
  let db := (dZ.rowSum).divs m
  let dA_prev := W.transpose.matMul dZ
  (dA_prev, dW, db)

/-- Source lines 51-57 are `cp.maximum(0, Z)` (unused by the forward pass,
which selects Leaky ReLU); lines 59-65, `leaky_relu`:
`cp.where(Z >= 0, Z, Z*0.01)`. -/
def leaky_relu (Z : Mat) : Mat :=
  ⟨Z.rows, Z.cols, fun i j =>
    if 0 ≤ Z.entry i j then Z.entry i j else Z.entry i j * (1 / 100)⟩

/-- Source lines 67-69, `sigmoid`, applied entrywise; the scalar map
`1/(1+exp(-z))` is the abstract parameter `sigma`. -/
def sigmoidMat (sigma : ℚ → ℚ) (Z : Mat) : Mat :=
  ⟨Z.rows, Z.cols, fun i j => sigma (Z.entry i j)⟩

/-- Source lines 90-103, `lrelu_backward`:
`dZ = dA * cp.where(Z >= 0, 1, 0.01)`. -/
def lrelu_backward (dA Z : Mat) : Mat :=
  ⟨Z.rows, Z.cols, fun i j =>
    dA.entry i j * (if 0 ≤ Z.entry i j then 1 else 1 / 100)⟩

/-- Source lines 105-111, `sigmoid_backward`:
`dZ = dA * sigmoid(Z) * (1 - sigmoid(Z))`. -/
def sigmoid_backward (sigma : ℚ → ℚ) (dA Z : Mat) : Mat :=
  ⟨Z.rows, Z.cols, fun i j =>
    dA.entry i j * (sigma (Z.entry i j) * (1 - sigma (Z.entry i j)))⟩

/-- The inverted-dropout application `A = cp.multiply(A, Dl); A /= kp`
(source lines 295-296, 309-310, and the backward lines 401-402, 413-414). -/
def maskScale (A Dl : Mat) (kp : ℚ) : Mat :=
  ⟨A.rows, A.cols, fun i j => A.entry i j * Dl.entry i j / kp⟩

/-- Source lines 114-140, body of the `init_params` loop for one layer `l`:
`W_l = randn(n[l], n[l-1]) * 0.001`, `b_l = zeros((n[l], 1))`, followed by the
two shape assertions (modelled as explicit checks on the built arrays). -/
def initLayer (randn : ℕ → ℕ → ℕ → ℚ) (n : List ℕ) (l : ℕ) :
    Except String (Mat × Mat) :=
  let W : Mat := ⟨n.getD l 0, n.getD (l - 1) 0, fun i j => randn l i j * (1 / 1000)⟩
  let b : Mat := ⟨n.getD l 0, 1, fun _ _ => 0⟩
  if W.rows = n.getD l 0 ∧ W.cols = n.getD (l - 1) 0 ∧ b.rows = n.getD l 0 ∧ b.cols = 1 then
    Except.ok (W, b)
  else
    Except.error "AssertionError"

/-- Source lines 114-140, `init_params`: the loop `for l in np.arange(1, L)`
with `L = len(n)`.  `randn l i j` supplies the Gaussian draw for entry
`(i, j)` of layer `l`'s weight matrix.  Note the source performs no check on
`len(n)` itself: for `len(n) <= 1` the loop body never runs and the empty
parameter dictionary is returned. -/
def init_params (randn : ℕ → ℕ → ℕ → ℚ) (n : List ℕ) :
    Except String (List (Mat × Mat)) :=
  ((List.range n.length).drop 1).mapM (initLayer randn n)

/-- Source lines 161-182, `init_dropout`: for every `l in range(len(layer_dims))`,
`D[l] = (rand(layer_dims[l], m) < keep_prob[l])`.  The uniform draws are the
parameter `rand`; the boolean mask is stored as a 0/1 rational matrix, which is
exactly how numpy consumes it in `cp.multiply`. -/
def init_dropout (rand : ℕ → ℕ → ℕ → ℚ) (layer_dims : List ℕ) (kp : ℕ → ℚ)
    (m : ℕ) : ℕ → Mat :=
  fun l => ⟨layer_dims.getD l 0, m, fun i j => if rand l i j < kp l then 1 else 0⟩

/-- Source lines 184-218, `init_mini_batches`.  `perm` is the drawn
`np.random.permutation` of the column labels `0..m-1`; `shuffled_X` takes the
columns of `X` in the order listed by `perm`, `shuffled_y` likewise; the list
is cut into `m / mb` full slices of width `mb` plus, when `m % mb ≠ 0`, one
remainder slice holding the final `m % mb` columns. -/
def init_mini_batches (X y : Mat) (perm : List ℕ) (mb : ℕ) :
    List (Mat × Mat) :=
  let m := X.cols
  let shX : Mat := ⟨X.rows, m, fun i j => X.entry i (perm.getD j 0)⟩
  let shy : Mat := ⟨1, m, fun _ j => y.entry 0 (perm.getD j 0)⟩
  let nb := m / mb
  let full := (List.range nb).map (fun n =>
    ((⟨X.rows, mb, fun i j => shX.entry i (n * mb + j)⟩ : Mat),
     (⟨1, mb, fun i j => shy.entry i (n * mb + j)⟩ : Mat)))
  if m % mb ≠ 0 then
    full ++ [((⟨X.rows, m - nb * mb, fun i j => shX.entry i (nb * mb + j)⟩ : Mat),
              (⟨1, m - nb * mb, fun i j => shy.entry i (nb * mb + j)⟩ : Mat))]
  else
    full

/-- Forward cache of one layer: `((A_prev, W, b), Z)` (source line 277). -/
abbrev Cache := (Mat × Mat × Mat) × Mat

/-- Source lines 232-250, `linear_forward`: `Z = cp.dot(W, A_prev) + b`
(the bias column broadcasts over the example axis). -/
def linear_forward (A_prev W b : Mat) : Mat :=
  ⟨W.rows, A_prev.cols, fun i j =>
    (∑ k ∈ Finset.range W.cols, W.entry i k * A_prev.entry k j) + b.entry i 0⟩

/-- Source lines 289-298: the hidden-layer loop `for l in range(1, L)` of
`L_model_forward`, carrying the running activation and the layer counter `l`.
Each layer computes `Z`, applies Leaky ReLU, in training mode applies
`maskScale` with mask `D[l]` and divisor `keep_prob[l]`, and appends the cache
`((A_prev, W, b), Z)` built from the pre-mask input. -/
def forwardHidden (train : Bool) (D : ℕ → Mat) (kp : ℕ → ℚ) :
    Mat → ℕ → List (Mat × Mat) → Mat × List Cache
  | A, _, [] => (A, [])
  | A, l, (W, b) :: rest =>
    let Z := linear_forward A W b
    let A1 := leaky_relu Z
    let A2 := if train then maskScale A1 (D l) (kp l) else A1
    let next := forwardHidden train D kp A2 (l + 1) rest
    (next.1, ((A, W, b), Z) :: next.2)

/-- Source lines 221-322, `L_model_forward`.  `params` lists layers `1..L`;
the first `L-1` layers run Leaky ReLU (the hidden loop), the last runs
Sigmoid, each with mask-and-scale in training mode.  With an empty parameter
dictionary (`L = 0`) the final lookup of key `'W0'` raises `KeyError`,
modelled as `Except.error`. -/
def L_model_forward (sigma : ℚ → ℚ) (train : Bool) (D : ℕ → Mat)
    (kp : ℕ → ℚ) (X : Mat) (params : List (Mat × Mat)) :
    Except String (Mat × List Cache) :=
  match params.getLast? with
  | none => Except.error "KeyError: W0"
  | some (WL, bL) =>
    let L := params.length
    let hidden := forwardHidden train D kp X 1 params.dropLast
    let Z := linear_forward hidden.1 WL bL
    let AL := sigmoidMat sigma Z
    let AL2 := if train then maskScale AL (D L) (kp L) else AL
    Except.ok (AL2, hidden.2 ++ [((hidden.1, WL, bL), Z)])

/-- The two activation tags dispatched by string comparison in the source. -/
inductive Act where
  | lrelu : Act
  | sigmoid : Act

/-- Source lines 363-392, `activation_back`: convert `dA` to `dZ` with the
layer's activation derivative, then `linear_back`. -/
def activation_back (sigma : ℚ → ℚ) (lambd : ℚ) (dA : Mat) (cache : Cache)
    (act : Act) : Mat × Mat × Mat :=
  let dZ := match act with
    | Act.lrelu => lrelu_backward dA cache.2
    | Act.sigmoid => sigmoid_backward sigma dA cache.2
  linear_back lambd dZ cache.1

/-- Source lines 409-414: the loop `for l in reversed(range(L-1))` of
`L_model_backward`, processing the hidden caches from layer `L-1` down to 1
(the argument list is the hidden caches reversed, so recursion is structural).
At layer index `layer` the freshly computed `dA_prev` is multiplied by mask
`D[layer-1]` and divided by `keep_prob[layer]` — the indices the source uses
at loop variable `l = layer - 1`: mask `D[str(l)]`, divisor `keep_prob[l+1]`.
The produced list is `[grads_layer, grads_(layer-1), ..., grads_1]`. -/
def backHidden (sigma : ℚ → ℚ) (lambd : ℚ) (D : ℕ → Mat) (kp : ℕ → ℚ) :
    Mat → ℕ → List Cache → List (Mat × Mat × Mat)
  | _, _, [] => []
  | dA, layer, c :: rest =>
    let g := activation_back sigma lambd dA c Act.lrelu
    let masked := maskScale g.1 (D (layer - 1)) (kp layer)
    (masked, g.2.1, g.2.2) :: backHidden sigma lambd D kp masked (layer - 1) rest

/-- Source lines 325-417, `L_model_backward`.  Output list index `l - 1`
holds `(grads['dA'+str(l)], grads['dW'+str(l)], grads['db'+str(l)])` for
layer `l` in `1..L`.  Note `grads['dA'+str(L)]` (the `dA_prev` produced by
the output layer's `activation_back`) is stored, and fed to the first hidden
iteration, without any mask-and-scale. -/
def L_model_backward (sigma : ℚ → ℚ) (lambd : ℚ) (D : ℕ → Mat) (kp : ℕ → ℚ)
    (AL Y : Mat) (caches : List Cache) :
    Except String (List (Mat × Mat × Mat)) :=
  match caches.getLast? with
  | none => Except.error "IndexError: caches is empty"
  | some cL =>
    let L := caches.length
    let dAL0 : Mat := ⟨AL.rows, AL.cols, fun i j =>
      -(Y.entry i j / AL.entry i j - (1 - Y.entry i j) / (1 - AL.entry i j))⟩
    let dAL := maskScale dAL0 (D L) (kp L)
    let top := activation_back sigma lambd dAL cL Act.sigmoid
    let hidden := backHidden sigma lambd D kp top.1 (L - 1) caches.dropLast.reverse
    Except.ok (hidden.reverse ++ [(top.1, top.2.1, top.2.2)])

/-- Source lines 420-443, `update_params`: for every layer
`v := beta*v + (1-beta)*grad` then `param := param - v*lr`, independently for
weights and biases.  `grads` lists `(dW_l, db_l)` per layer; a missing
gradient or momentum entry for a layer present in `parameters` would be a
python `KeyError`, modelled as `Except.error`; entries beyond
`len(parameters)//2` are never read. -/
def update_params (beta lr : ℚ) :
    List (Mat × Mat) → List (Mat × Mat) → List (Mat × Mat) →
    Except String (List (Mat × Mat) × List (Mat × Mat))
  | [], _, _ => Except.ok ([], [])
  | _ :: _, [], _ => Except.error "KeyError: grads"
  | _ :: _, _ :: _, [] => Except.error "KeyError: v"
  | (W, b) :: ps, (gW, gb) :: gs, (vW, vb) :: vs =>
    let vW' := (vW.smul beta).add (gW.smul (1 - beta))
    let vb' := (vb.smul beta).add (gb.smul (1 - beta))
    match update_params beta lr ps gs vs with
    | Except.error e => Except.error e
    | Except.ok rest =>
      Except.ok ((W.sub (vW'.smul lr), b.sub (vb'.smul lr)) :: rest.1,
                 (vW', vb') :: rest.2)

/-- Source lines 446-463, the mini-batch schedule of `fit`: line 456 computes
`mini_batches = self.init_mini_batches(X_train, Y_train, mb_size)` once,
before the epoch loop, and every epoch `i in range(num_epochs)` then iterates
over that same list (`for b in range(len(mini_batches))`).  `perms e` is the
permutation `np.random.permutation` would return on its `e`-th call; the
single partitioning consumes only `perms 0`.  The per-batch training step
(dropout, forward, cost, backward, update) does not influence which batches
are visited, so the schedule is the faithful projection of `fit` onto the
claim about partitioning. -/
def fit_schedule (numEpochs mb : ℕ) (X y : Mat) (perms : ℕ → List ℕ) :
    List (List (Mat × Mat)) :=
  let mini_batches := init_mini_batches X y (perms 0) mb
  (List.range numEpochs).map (fun _ => mini_batches)

/-- Modelled from the spec: the schedule claimed by the specification
("re-partition mini-batches each epoch ... fresh permutation each epoch"),
in which epoch `i` partitions with the `i`-th drawn permutation. -/
def fit_schedule_claimed (numEpochs mb : ℕ) (X y : Mat) (perms : ℕ → List ℕ) :
    List (List (Mat × Mat)) :=
  (List.range numEpochs).map (fun i => init_mini_batches X y (perms i) mb)

/-- Source lines 504-509 of `predict`: `y = np.zeros((1, m))`, then
`y[0,i] = 1` exactly where `probas[0,i] > 0.5`. -/
def threshold_labels (m : ℕ) (probas : Mat) : Mat :=
  ⟨1, m, fun i j =>
    if i = 0 ∧ j < probas.cols then
      (if 1 / 2 < probas.entry 0 j then 1 else 0)
    else 0⟩

/-- Source lines 486-510, `predict`: forward propagation in test mode (the
dropout argument `[0,0]` is never unpacked when `mode='test'`; modelled by a
dummy mask/keep-prob), then 0.5-thresholding.  Returns `(y, probas)`.
Before `fit` has run, `self.trained_params` is the empty dictionary set in
`__init__` (source line 23), i.e. `params = []`. -/
def predict (sigma : ℚ → ℚ) (X : Mat) (params : List (Mat × Mat)) :
    Except String (Mat × Mat) :=
  match L_model_forward sigma false (fun _ => default) (fun _ => 0) X params with
  | Except.error e => Except.error e
  | Except.ok (probas, _) => Except.ok (threshold_labels X.cols probas, probas)

/-! Concrete instances used by the closed evaluation theorems and witnesses. -/

/-- Concrete stand-in for the numeric sigmoid: the constant `1/2`.
Used only to evaluate the embedding at concrete inputs; the structural
theorems hold for every `sigma`. -/
def exSigma : ℚ → ℚ := fun _ => 1 / 2

/-- Concrete input `X = [[3]]`. -/
def exX1 : Mat := ⟨1, 1, fun _ _ => 3⟩

/-- Concrete labels `Y = [[1]]`. -/
def exY1 : Mat := ⟨1, 1, fun _ _ => 1⟩

/-- Concrete weight `W = [[1]]`. -/
def exW1 : Mat := ⟨1, 1, fun _ _ => 1⟩

/-- Concrete bias `b = [[0]]`. -/
def exB1 : Mat := ⟨1, 1, fun _ _ => 0⟩

/-- Concrete two-layer parameter store for `layer_dims = [1, 1, 1]`:
`W1 = W2 = [[1]]`, `b1 = b2 = [[0]]`. -/
def exParams2 : List (Mat × Mat) := [(exW1, exB1), (exW1, exB1)]

/-- Concrete keep probabilities `[1, 1/2, 1]`: hidden layer 1 keeps with
probability `1/2`, input and output layers keep everything. -/
def exKp : ℕ → ℚ := fun l => if l = 1 then 1 / 2 else 1

/-- Concrete all-ones dropout masks (every unit kept). -/
def exD : ℕ → Mat := fun _ => ⟨1, 1, fun _ _ => 1⟩

/-- Training-mode forward pass at the concrete C1 input. -/
def exFwd : Except String (Mat × List Cache) :=
  L_model_forward exSigma true exD exKp exX1 exParams2

/-- Backward pass consuming the concrete forward pass (lambda = 0). -/
def exBwd : Except String (List (Mat × Mat × Mat)) :=
  match exFwd with
  | Except.ok (AL, cs) => L_model_backward exSigma 0 exD exKp AL exY1 cs
  | Except.error e => Except.error e

/-- C1: the claim states that for every hidden layer `l` the newly computed
`dA_prev` is multiplied by layer `l`'s dropout mask and divided by layer
`l`'s `keepProb` before being fed onward, exactly mirroring the forward
pass.  The code (lines 409-414) divides by `keep_prob[l+1]` instead of
`keep_prob[l]`, and never masks the topmost hidden gradient at all, so the
mirror property fails.  This theorem evaluates the embedded pipeline at the
failing input `layer_dims = [1,1,1]`, `X=[[3]]`, `Y=[[1]]`, `W1=W2=[[1]]`,
`b=0`, `keepProb=[1, 1/2, 1]`, all-ones masks, `lambda=0`, sigmoid modelled
as the constant `1/2`: the forward pass scales the hidden activation by
`1/keepProb[1]` (cache shows `A1 = 6`, i.e. `3/(1/2)`), but the backward
pass stores and feeds the hidden gradient `dA2 = -1/2` unscaled — the exact
mirror would feed `(-1/2)·D1/keepProb[1] = -1` — so the layer-1 weight
gradient comes out `-3/2` instead of the mirrored `-3`. -/
theorem claim_C1_backward_dropout_divergence :
    (exFwd.toOption.bind (fun p => (p.2[1]?).map (fun c => c.1.1.entry 0 0))
        = some (6 : ℚ))
    ∧ (exBwd.toOption.bind (fun gs => (gs[1]?).map (fun g => g.1.entry 0 0))
        = some (-(1 / 2) : ℚ))
    ∧ ((maskScale ⟨1, 1, fun _ _ => -(1 / 2)⟩ (exD 1) (exKp 1)).entry 0 0 = -1)
    ∧ (exBwd.toOption.bind (fun gs => (gs[0]?).map (fun g => g.2.1.entry 0 0))
        = some (-(3 / 2) : ℚ))
    ∧ ((-(1 / 2) : ℚ) ≠ -1) ∧ ((-(3 / 2) : ℚ) ≠ -3) := by
  refine ⟨?_, ?_, ?_, ?_, by norm_num, by norm_num⟩ <;>
    · simp only [exFwd, exBwd, L_model_forward, L_model_backward, forwardHidden, backHidden,
        exParams2, exX1, exY1, exW1, exB1, exD, exKp, exSigma,
        linear_forward, leaky_relu, maskScale, sigmoidMat,
        activation_back, lrelu_backward, sigmoid_backward, linear_back,
        Mat.matMul, Mat.transpose, Mat.rowSum, Mat.add, Mat.smul, Mat.divs,
        List.getLast?, List.dropLast, List.reverse, List.reverseAux,
        Except.toOption, Option.bind, Option.map, List.getElem?_cons_succ,
        List.getElem?_cons_zero, List.append_nil, List.cons_append, List.nil_append,
        Finset.sum_range_one]
      norm_num

/-- Concrete 1×2 training data for the C2 counterexample: two
distinguishable examples `10` and `20`. -/
def exX2 : Mat := ⟨1, 2, fun _ j => if j = 0 then 10 else 20⟩

/-- Concrete labels for the C2 counterexample. -/
def exY2 : Mat := ⟨1, 2, fun _ j => if j = 0 then 5 else 6⟩

/-- Concrete stream of drawn permutations: the first call would return
`[0, 1]`, every later call `[1, 0]`. -/
def exPerms : ℕ → List ℕ := fun e => if e = 0 then [0, 1] else [1, 0]

/-- Probe extracting the first entry of the first batch of epoch 1. -/
def exEpoch1Probe (s : List (List (Mat × Mat))) : Option ℚ :=
  (s[1]?).bind (fun bs => (bs[0]?).map (fun b => b.1.entry 0 0))

/-- C2: the claim states that `fit` re-partitions the training examples at
the start of every epoch with a fresh permutation.  The source (line 456)
partitions once, before the epoch loop.  At the concrete input with two
epochs and distinct drawn permutations `[0,1]` then `[1,0]`, the code's
epoch-1 batches coincide with epoch 0's (first example `10`), while the
claimed fresh re-partition would start epoch 1 with example `20`; the two
schedules differ. -/
theorem claim_C2_counterexample :
    ((fit_schedule 2 1 exX2 exY2 exPerms)[0]? = (fit_schedule 2 1 exX2 exY2 exPerms)[1]?)
    ∧ exEpoch1Probe (fit_schedule 2 1 exX2 exY2 exPerms) = some 10
    ∧ exEpoch1Probe (fit_schedule_claimed 2 1 exX2 exY2 exPerms) = some 20
    ∧ fit_schedule 2 1 exX2 exY2 exPerms ≠ fit_schedule_claimed 2 1 exX2 exY2 exPerms := by
  refine ⟨rfl, rfl, rfl, fun h => ?_⟩
  have hp := congrArg exEpoch1Probe h
  rw [show exEpoch1Probe (fit_schedule 2 1 exX2 exY2 exPerms) = some 10 from rfl,
      show exEpoch1Probe (fit_schedule_claimed 2 1 exX2 exY2 exPerms) = some 20 from rfl] at hp
  exact absurd hp (by decide)

/-- C2 (amended): `fit` partitions the training examples into mini-batches
exactly once, before the epoch loop, consuming only the first drawn
permutation; every epoch then reuses that same batch sequence. -/
theorem claim_C2_amended (numEpochs mb : ℕ) (X y : Mat) (perms : ℕ → List ℕ)
    (i : ℕ) (hi : i < numEpochs) :
    (fit_schedule numEpochs mb X y perms)[i]?
      = some (init_mini_batches X y (perms 0) mb) := by
  unfold fit_schedule
  rw [List.getElem?_map, List.getElem?_range hi]
  rfl

/-- Witness for the amended C2 theorem at a concrete input. -/
theorem claim_C2_amended_witness :
    (0 < 2)
    ∧ (fit_schedule 2 1 exX2 exY2 exPerms)[0]?
        = some (init_mini_batches exX2 exY2 (exPerms 0) 1)
    ∧ (fit_schedule 2 1 exX2 exY2 exPerms)[1]?
        = some (init_mini_batches exX2 exY2 (exPerms 0) 1) :=
  ⟨by decide, claim_C2_amended 2 1 exX2 exY2 exPerms 0 (by decide),
    claim_C2_amended 2 1 exX2 exY2 exPerms 1 (by decide)⟩

/-- C3: the claim states `init_params` raises a fatal error whenever
`layerDims` has fewer than 2 entries.  The source has no such check: with
`layerDims = [5]` the initialization loop body never runs and the empty
parameter dictionary is returned successfully. -/
theorem claim_C3_counterexample :
    ([5] : List ℕ).length < 2
    ∧ init_params (fun _ _ _ => 0) [5] = Except.ok [] :=
  ⟨by decide, rfl⟩

/-- C3 (amended): `init_params` performs no arity validation; for every
`layerDims` with fewer than 2 entries it returns successfully with an empty
parameter store instead of failing. -/
theorem claim_C3_amended (randn : ℕ → ℕ → ℕ → ℚ) (n : List ℕ)
    (h : n.length < 2) :
    init_params randn n = Except.ok [] := by
  unfold init_params
  have h' : n.length = 0 ∨ n.length = 1 := by omega
  rcases h' with h0 | h1
  · rw [h0]
    rfl
  · rw [h1]
    rfl

/-- Witness for the amended C3 theorem at the concrete input `[5]`. -/
theorem claim_C3_amended_witness :
    ([5] : List ℕ).length < 2
    ∧ init_params (fun _ _ _ => (1 : ℚ)) [5] = Except.ok [] :=
  ⟨by decide, claim_C3_amended (fun _ _ _ => 1) [5] (by decide)⟩

/-- C4: calling `predict` before `fit` has completed (so
`self.trained_params` is still the empty dictionary assigned in `__init__`)
aborts with a fatal `KeyError` from the lookup of `'W0'` in
`L_model_forward`, and returns no label or probability output. -/
theorem claim_C4_untrained_predict_errors (sigma : ℚ → ℚ) (X : Mat) :
    predict sigma X [] = Except.error "KeyError: W0" :=
  rfl

/-- C7: `linear_back` returns exactly `dW = (dZ·A_prev^T)/m + (lambd·W)/m`,
`db = sum(dZ, axis=examples)/m` and `dA_prev = W^T·dZ`, stated entrywise
with `m = A_prev.cols` the cached batch size (the hypothesis ties `dZ`'s
example axis to the cache, as in every call site), together with the output
shapes. -/
theorem claim_C7_linear_back_formulas (lambd : ℚ) (dZ A_prev W b : Mat)
    (hdz : dZ.cols = A_prev.cols) (i j : ℕ) :
    ((linear_back lambd dZ (A_prev, W, b)).1.entry i j
        = ∑ k ∈ Finset.range W.rows, W.entry k i * dZ.entry k j)
    ∧ ((linear_back lambd dZ (A_prev, W, b)).2.1.entry i j
        = (∑ k ∈ Finset.range A_prev.cols, dZ.entry i k * A_prev.entry j k)
            / (A_prev.cols : ℚ)
          + lambd * W.entry i j / (A_prev.cols : ℚ))
    ∧ ((linear_back lambd dZ (A_prev, W, b)).2.2.entry i 0
        = (∑ k ∈ Finset.range A_prev.cols, dZ.entry i k) / (A_prev.cols : ℚ))
    ∧ (linear_back lambd dZ (A_prev, W, b)).1.rows = W.cols
    ∧ (linear_back lambd dZ (A_prev, W, b)).1.cols = dZ.cols
    ∧ (linear_back lambd dZ (A_prev, W, b)).2.1.rows = dZ.rows
    ∧ (linear_back lambd dZ (A_prev, W, b)).2.1.cols = A_prev.rows
    ∧ (linear_back lambd dZ (A_prev, W, b)).2.2.rows = dZ.rows
    ∧ (linear_back lambd dZ (A_prev, W, b)).2.2.cols = 1 := by
  refine ⟨?_, ?_, ?_, rfl, rfl, rfl, rfl, rfl, rfl⟩
  · simp [linear_back, Mat.matMul, Mat.transpose]
  · simp only [linear_back, Mat.add, Mat.divs, Mat.matMul, Mat.transpose, Mat.smul]
    rw [hdz]
    ring
  · simp only [linear_back, Mat.divs, Mat.rowSum]
    rw [hdz]

/-- Concrete matrix `[[2]]`. -/
def exWTwo : Mat := ⟨1, 1, fun _ _ => 2⟩

/-- Concrete matrix `[[3]]`. -/
def exWThree : Mat := ⟨1, 1, fun _ _ => 3⟩

/-- Concrete matrix `[[5]]`. -/
def exWFive : Mat := ⟨1, 1, fun _ _ => 5⟩

/-- Witness for C7 at `dZ=[[2]]`, `A_prev=[[3]]`, `W=[[5]]`, `lambd=1`:
`dA_prev = 10`, `dW = 6 + 5 = 11`, `db = 2`. -/
theorem claim_C7_linear_back_formulas_witness :
    ((linear_back 1 exWTwo (exWThree, exWFive, exB1)).1.entry 0 0 = 10)
    ∧ ((linear_back 1 exWTwo (exWThree, exWFive, exB1)).2.1.entry 0 0 = 11)
    ∧ ((linear_back 1 exWTwo (exWThree, exWFive, exB1)).2.2.entry 0 0 = 2) := by
  obtain ⟨h1, h2, h3, _⟩ :=
    claim_C7_linear_back_formulas 1 exWTwo exWThree exWFive exB1 rfl 0 0
  refine ⟨?_, ?_, ?_⟩
  · rw [h1]
    norm_num [exWTwo, exWThree, exWFive, Finset.sum_range_one]
  · rw [h2]
    norm_num [exWTwo, exWThree, exWFive, Finset.sum_range_one]
  · rw [h3]
    norm_num [exWTwo, exWThree, Finset.sum_range_one]

/-- Concrete all-zero 1×1 matrix. -/
def exZero : Mat := ⟨1, 1, fun _ _ => 0⟩

/-- C8: the claim asserts that strictly increasing `lambda` strictly
increases the L2 term's contribution for every fixed `Y_true`, `Y_pred` and
parameters.  With an all-zero weight matrix the L2 term is `0` for every
`lambda`: increasing `lambda` from 0 to 1 leaves both the L2 contribution
and the total cost unchanged, so the strict increase fails. -/
theorem claim_C8_counterexample :
    ((0 : ℚ) < 1)
    ∧ L2_regularization 0 exY1.cols [(exZero, exZero)]
        = L2_regularization 1 exY1.cols [(exZero, exZero)]
    ∧ compute_cost (fun _ => 0) 0 exY1 exY1 [(exZero, exZero)]
        = compute_cost (fun _ => 0) 1 exY1 exY1 [(exZero, exZero)] := by
  refine ⟨by norm_num, ?_, ?_⟩ <;>
    simp [L2_regularization, L2_norm, Mat.sumSq, compute_cost, cross_entropy,
      exZero, exY1, Finset.sum_range_one]

/-- C8 (amended): the cost equals the cross-entropy term plus
`(lambda/(2m))·Σ_l ‖W_l‖²_F`; and provided the batch is non-empty and some
weight entry is nonzero (`L2_norm > 0`), strictly increasing `lambda`
strictly increases the L2 contribution while the cross-entropy term is
unchanged (the cost difference is exactly the L2-contribution difference). -/
theorem claim_C8_amended (log : ℚ → ℚ) (lambd1 lambd2 : ℚ) (Y_true Y_pred : Mat)
    (params : List (Mat × Mat)) (hm : 0 < Y_true.cols)
    (hw : 0 < L2_norm params) (hl : lambd1 < lambd2) :
    (compute_cost log lambd1 Y_true Y_pred params
        = cross_entropy log Y_true Y_pred
          + (lambd1 / (2 * (Y_true.cols : ℚ))) * L2_norm params)
    ∧ L2_regularization lambd1 Y_true.cols params
        < L2_regularization lambd2 Y_true.cols params
    ∧ compute_cost log lambd2 Y_true Y_pred params
        - compute_cost log lambd1 Y_true Y_pred params
        = L2_regularization lambd2 Y_true.cols params
          - L2_regularization lambd1 Y_true.cols params := by
  have h2 : (0 : ℚ) < 2 * (Y_true.cols : ℚ) := by
    have hc : (0 : ℚ) < (Y_true.cols : ℚ) := by exact_mod_cast hm
    linarith
  refine ⟨rfl, ?_, by unfold compute_cost; ring⟩
  unfold L2_regularization
  have key := mul_lt_mul_of_pos_right hl (div_pos hw h2)
  calc lambd1 / (2 * (Y_true.cols : ℚ)) * L2_norm params
      = lambd1 * (L2_norm params / (2 * (Y_true.cols : ℚ))) := by ring
    _ < lambd2 * (L2_norm params / (2 * (Y_true.cols : ℚ))) := key
    _ = lambd2 / (2 * (Y_true.cols : ℚ)) * L2_norm params := by ring

/-- Witness for the amended C8 theorem: `W = [[2]]` (so `L2_norm = 4`),
`m = 1`, `lambda` from 1 to 3, `log` the constant 0. -/
theorem claim_C8_amended_witness :
    (compute_cost (fun _ => 0) 1 exY1 exY1 [(exWTwo, exB1)]
        = cross_entropy (fun _ => 0) exY1 exY1
          + (1 / (2 * (exY1.cols : ℚ))) * L2_norm [(exWTwo, exB1)])
    ∧ L2_regularization 1 exY1.cols [(exWTwo, exB1)]
        < L2_regularization 3 exY1.cols [(exWTwo, exB1)]
    ∧ compute_cost (fun _ => 0) 3 exY1 exY1 [(exWTwo, exB1)]
        - compute_cost (fun _ => 0) 1 exY1 exY1 [(exWTwo, exB1)]
        = L2_regularization 3 exY1.cols [(exWTwo, exB1)]
          - L2_regularization 1 exY1.cols [(exWTwo, exB1)] :=
  claim_C8_amended (fun _ => 0) 1 3 exY1 exY1 [(exWTwo, exB1)]
    (by decide)
    (by norm_num [L2_norm, Mat.sumSq, exWTwo, Finset.sum_range_one])
    (by norm_num)

/-- C6: one `update_params` call succeeds whenever the gradient and momentum
stores cover every parameter layer, preserves the layer counts, and for
every layer sets the momentum to `beta·v + (1-beta)·grad` (independently for
weights and biases) and the parameter to `param - lr·(new momentum)` — and
nothing else: every output layer is fully determined by these equations. -/
theorem claim_C6_update_params_spec (beta lr : ℚ) (ps gs vs : List (Mat × Mat))
    (hg : ps.length ≤ gs.length) (hv : ps.length ≤ vs.length) :
    ∃ ps' vs', update_params beta lr ps gs vs = Except.ok (ps', vs')
      ∧ ps'.length = ps.length ∧ vs'.length = ps.length
      ∧ (∀ (l : ℕ) (W b gW gb vW vb : Mat),
          ps[l]? = some (W, b) → gs[l]? = some (gW, gb) → vs[l]? = some (vW, vb) →
          vs'[l]? = some ((vW.smul beta).add (gW.smul (1 - beta)),
                          (vb.smul beta).add (gb.smul (1 - beta)))
          ∧ ps'[l]? = some
              (W.sub ((((vW.smul beta).add (gW.smul (1 - beta)))).smul lr),
               b.sub ((((vb.smul beta).add (gb.smul (1 - beta)))).smul lr))) := by
  induction ps generalizing gs vs with
  | nil =>
    refine ⟨[], [], rfl, rfl, rfl, fun l W b gW gb vW vb hp _ _ => ?_⟩
    simp at hp
  | cons p ps ih =>
    obtain ⟨W, b⟩ := p
    match gs, vs with
    | [], _ => simp at hg
    | _ :: _, [] => simp at hv
    | (gW, gb) :: gs, (vW, vb) :: vs =>
      obtain ⟨ps', vs', heq, hlp, hlv, hspec⟩ :=
        ih gs vs (by simpa using hg) (by simpa using hv)
      have hstep : update_params beta lr ((W, b) :: ps) ((gW, gb) :: gs) ((vW, vb) :: vs)
          = Except.ok
              (((W.sub ((((vW.smul beta).add (gW.smul (1 - beta)))).smul lr),
                 b.sub ((((vb.smul beta).add (gb.smul (1 - beta)))).smul lr))) :: ps',
               ((vW.smul beta).add (gW.smul (1 - beta)),
                (vb.smul beta).add (gb.smul (1 - beta))) :: vs') := by
        unfold update_params
        rw [heq]
      refine ⟨_, _, hstep, by simp [hlp], by simp [hlv], ?_⟩
      intro l W' b' gW' gb' vW' vb' hp' hg' hv'
      cases l with
      | zero =>
        simp only [List.getElem?_cons_zero, Option.some.injEq, Prod.mk.injEq] at hp' hg' hv'
        obtain ⟨hW, hb⟩ := hp'
        obtain ⟨hgW, hgb⟩ := hg'
        obtain ⟨hvW, hvb⟩ := hv'
        subst hW hb hgW hgb hvW hvb
        exact ⟨by simp, by simp⟩
      | succ l =>
        simp only [List.getElem?_cons_succ] at hp' hg' hv' ⊢
        exact hspec l W' b' gW' gb' vW' vb' hp' hg' hv'

/-- Concrete matrix `[[10]]`. -/
def exWTen : Mat := ⟨1, 1, fun _ _ => 10⟩

/-- Concrete matrix `[[4]]`. -/
def exWFour : Mat := ⟨1, 1, fun _ _ => 4⟩

/-- Witness for C6 at one layer with `W=[[10]]`, `grad=[[2]]`, `v=[[4]]`,
`beta=1/2`, `lr=1`: new momentum `3 = 4/2 + 2/2`, new weight `7 = 10 - 3`. -/
theorem claim_C6_update_params_spec_witness :
    ∃ ps' vs',
      update_params (1 / 2) 1 [(exWTen, exB1)] [(exWTwo, exB1)] [(exWFour, exB1)]
        = Except.ok (ps', vs')
      ∧ (ps'[0]?).map (fun p => p.1.entry 0 0) = some (7 : ℚ)
      ∧ (vs'[0]?).map (fun p => p.1.entry 0 0) = some (3 : ℚ) := by
  obtain ⟨ps', vs', heq, _, _, hspec⟩ :=
    claim_C6_update_params_spec (1 / 2) 1 [(exWTen, exB1)] [(exWTwo, exB1)]
      [(exWFour, exB1)] (by decide) (by decide)
  obtain ⟨hv0, hp0⟩ := hspec 0 exWTen exB1 exWTwo exB1 exWFour exB1 rfl rfl rfl
  refine ⟨ps', vs', heq, ?_, ?_⟩
  · rw [hp0]
    norm_num [Mat.sub, Mat.smul, Mat.add, exWTen, exWTwo, exWFour]
  · rw [hv0]
    norm_num [Mat.smul, Mat.add, exWTwo, exWFour]

/-- With a mask whose entries are all 1 and keep probability 1, the
inverted-dropout application is the identity. -/
theorem maskScale_ones (A Dl : Mat) (hD : ∀ i j, Dl.entry i j = 1) :
    maskScale A Dl 1 = A := by
  obtain ⟨r, c, e⟩ := A
  unfold maskScale
  simp only [Mat.mk.injEq, true_and]
  funext i j
  rw [hD, mul_one, div_one]

/-- Every entry of a mask generated with keep probability 1 from uniform
draws below 1 equals 1. -/
theorem init_dropout_ones (rand : ℕ → ℕ → ℕ → ℚ) (dims : List ℕ)
    (kp : ℕ → ℚ) (m : ℕ) (hkp : ∀ l, kp l = 1)
    (hrand : ∀ l i j, rand l i j < 1) (l i j : ℕ) :
    (init_dropout rand dims kp m l).entry i j = 1 := by
  unfold init_dropout
  dsimp only
  rw [hkp l]
  exact if_pos (hrand l i j)

/-- The hidden-layer loop in training mode with trivial masks equals the
loop in test mode. -/
theorem forwardHidden_dropout_noop (rand : ℕ → ℕ → ℕ → ℚ) (dims : List ℕ)
    (kp : ℕ → ℚ) (m : ℕ) (D2 : ℕ → Mat) (hkp : ∀ l, kp l = 1)
    (hrand : ∀ l i j, rand l i j < 1) :
    ∀ (ps : List (Mat × Mat)) (A : Mat) (l : ℕ),
      forwardHidden true (init_dropout rand dims kp m) kp A l ps
        = forwardHidden false D2 kp A l ps := by
  intro ps
  induction ps with
  | nil =>
    intro A l
    rfl
  | cons p rest ih =>
    intro A l
    obtain ⟨W, b⟩ := p
    have hmask : maskScale (leaky_relu (linear_forward A W b))
        (init_dropout rand dims kp m l) (kp l)
        = leaky_relu (linear_forward A W b) := by
      rw [hkp l]
      exact maskScale_ones _ _ (init_dropout_ones rand dims kp m hkp hrand l)
    simp only [forwardHidden, if_true, if_false, Bool.false_eq_true]
    rw [hmask, ih]

/-- C9: with `keepProb[l] = 1` for every layer and uniform draws in `[0,1)`,
dropout is a no-op: the training-mode forward pass with the generated masks
returns exactly the inference-mode forward pass (activations and caches),
for every input, parameter store and sigmoid. -/
theorem claim_C9_dropout_noop (sigma : ℚ → ℚ) (rand : ℕ → ℕ → ℕ → ℚ)
    (dims : List ℕ) (kp : ℕ → ℚ) (m : ℕ) (X : Mat)
    (params : List (Mat × Mat)) (D2 : ℕ → Mat)
    (hkp : ∀ l, kp l = 1) (hrand : ∀ l i j, rand l i j < 1) :
    L_model_forward sigma true (init_dropout rand dims kp m) kp X params
      = L_model_forward sigma false D2 kp X params := by
  unfold L_model_forward
  cases hlast : params.getLast? with
  | none => rfl
  | some pl =>
    obtain ⟨WL, bL⟩ := pl
    have hh := forwardHidden_dropout_noop rand dims kp m D2 hkp hrand
      params.dropLast X 1
    simp only [if_true, if_false, Bool.false_eq_true]
    rw [hh]
    have hmask : maskScale
        (sigmoidMat sigma
          (linear_forward (forwardHidden false D2 kp X 1 params.dropLast).1 WL bL))
        (init_dropout rand dims kp m params.length) (kp params.length)
        = sigmoidMat sigma
            (linear_forward (forwardHidden false D2 kp X 1 params.dropLast).1 WL bL) := by
      rw [hkp params.length]
      exact maskScale_ones _ _
        (init_dropout_ones rand dims kp m hkp hrand params.length)
    rw [hmask]

/-- Witness for C9 at a concrete one-layer network. -/
theorem claim_C9_dropout_noop_witness :
    (∀ l : ℕ, (fun _ : ℕ => (1 : ℚ)) l = 1)
    ∧ (∀ l i j : ℕ, (fun _ _ _ : ℕ => (0 : ℚ)) l i j < 1)
    ∧ L_model_forward exSigma true
        (init_dropout (fun _ _ _ => 0) [1, 1] (fun _ => 1) 1) (fun _ => 1)
        exX1 [(exW1, exB1)]
      = L_model_forward exSigma false exD (fun _ => 1) exX1 [(exW1, exB1)] :=
  ⟨fun _ => rfl, fun _ _ _ => by norm_num,
    claim_C9_dropout_noop exSigma (fun _ _ _ => 0) [1, 1] (fun _ => 1) 1 exX1
      [(exW1, exB1)] exD (fun _ => rfl) (fun _ _ _ => by norm_num)⟩

/-- A non-empty list always has a last element. -/
theorem exists_getLast?_cons {α : Type} (p : α) (ps : List α) :
    ∃ q, (p :: ps).getLast? = some q := by
  induction ps generalizing p with
  | nil => exact ⟨p, rfl⟩
  | cons q rest ih =>
    rw [List.getLast?_cons_cons]
    exact ih q

/-- The hidden-layer loop preserves the number of columns (the example
axis) of the running activation. -/
theorem forwardHidden_cols (train : Bool) (D : ℕ → Mat) (kp : ℕ → ℚ) :
    ∀ (ps : List (Mat × Mat)) (A : Mat) (l : ℕ),
      (forwardHidden train D kp A l ps).1.cols = A.cols := by
  intro ps
  induction ps with
  | nil =>
    intro A l
    rfl
  | cons p rest ih =>
    intro A l
    obtain ⟨W, b⟩ := p
    cases train with
    | false =>
      simpa only [forwardHidden, Bool.false_eq_true, if_false] using
        ih (leaky_relu (linear_forward A W b)) (l + 1)
    | true =>
      simpa only [forwardHidden, if_true] using
        ih (maskScale (leaky_relu (linear_forward A W b)) (D l) (kp l)) (l + 1)

/-- Reduction of `predict` on a non-empty parameter store to its explicit
output: thresholded labels paired with the raw probabilities. -/
theorem predict_cons_eq (sigma : ℚ → ℚ) (X : Mat) (p0 : Mat × Mat)
    (ps : List (Mat × Mat)) (WL bL : Mat)
    (hlast : (p0 :: ps).getLast? = some (WL, bL)) :
    predict sigma X (p0 :: ps) = Except.ok
      (threshold_labels X.cols
        (sigmoidMat sigma
          (linear_forward
            (forwardHidden false (fun _ => default) (fun _ => 0) X 1
              (p0 :: ps).dropLast).1 WL bL)),
       sigmoidMat sigma
         (linear_forward
           (forwardHidden false (fun _ => default) (fun _ => 0) X 1
             (p0 :: ps).dropLast).1 WL bL)) := by
  unfold predict L_model_forward
  rw [hlast]
  rfl

/-- Entry behaviour of the 0.5-thresholding inside the example range. -/
theorem threshold_labels_spec (m : ℕ) (P : Mat) (j : ℕ) (hj : j < m)
    (hcols : P.cols = m) :
    ((threshold_labels m P).entry 0 j = 1 ↔ 1 / 2 < P.entry 0 j)
    ∧ (P.entry 0 j = 1 / 2 → (threshold_labels m P).entry 0 j = 0) := by
  unfold threshold_labels
  dsimp only
  have hj' : j < P.cols := hcols ▸ hj
  rw [if_pos ⟨rfl, hj'⟩]
  constructor
  · by_cases h : 1 / 2 < P.entry 0 j
    · rw [if_pos h]
      exact iff_of_true rfl h
    · rw [if_neg h]
      exact iff_of_false (by norm_num) h
  · intro he
    rw [if_neg]
    rw [he]
    exact lt_irrefl _

/-- Every entry of the thresholded label array is 0 or 1. -/
theorem threshold_labels_zero_or_one (m : ℕ) (P : Mat) (i j : ℕ) :
    (threshold_labels m P).entry i j = 0 ∨ (threshold_labels m P).entry i j = 1 := by
  unfold threshold_labels
  dsimp only
  split
  · split
    · exact Or.inr rfl
    · exact Or.inl rfl
  · exact Or.inl rfl

/-- C10: on a trained (non-empty) parameter store, `predict` returns labels
of shape `(1, numExamples)`, every entry in `{0, 1}`, with label 1 assigned
exactly where the predicted probability strictly exceeds `0.5`; a
probability of exactly `0.5` yields label 0. -/
theorem claim_C10_predict_threshold (sigma : ℚ → ℚ) (X : Mat) (p0 : Mat × Mat)
    (ps : List (Mat × Mat)) :
    ∃ y probas, predict sigma X (p0 :: ps) = Except.ok (y, probas)
      ∧ y.rows = 1 ∧ y.cols = X.cols ∧ probas.cols = X.cols
      ∧ (∀ j, j < X.cols → ((y.entry 0 j = 1) ↔ (1 / 2 < probas.entry 0 j)))
      ∧ (∀ j, j < X.cols → probas.entry 0 j = 1 / 2 → y.entry 0 j = 0)
      ∧ (∀ i j, y.entry i j = 0 ∨ y.entry i j = 1) := by
  obtain ⟨⟨WL, bL⟩, hlast⟩ := exists_getLast?_cons p0 ps
  have hcols : (sigmoidMat sigma
      (linear_forward
        (forwardHidden false (fun _ => default) (fun _ => 0) X 1
          (p0 :: ps).dropLast).1 WL bL)).cols = X.cols :=
    forwardHidden_cols false (fun _ => default) (fun _ => 0)
      (p0 :: ps).dropLast X 1
  refine ⟨_, _, predict_cons_eq sigma X p0 ps WL bL hlast, rfl, rfl, hcols,
    ?_, ?_, ?_⟩
  · intro j hj
    exact (threshold_labels_spec X.cols _ j hj hcols).1
  · intro j hj
    exact (threshold_labels_spec X.cols _ j hj hcols).2
  · intro i j
    exact threshold_labels_zero_or_one X.cols _ i j

/-- Witness for C10: with the sigmoid stand-in constantly `1/2`, the
predicted probability is exactly `0.5` and the assigned label is 0. -/
theorem claim_C10_predict_threshold_witness :
    ((predict exSigma exX1 [(exW1, exB1)]).toOption.map
        (fun yp => (yp.1.entry 0 0, yp.2.entry 0 0)) = some ((0 : ℚ), (1 / 2 : ℚ)))
    ∧ (∃ y probas, predict exSigma exX1 [(exW1, exB1)] = Except.ok (y, probas)
        ∧ (y.entry 0 0 = 1 ↔ 1 / 2 < probas.entry 0 0)) := by
  constructor
  · simp only [predict, L_model_forward, forwardHidden, threshold_labels,
      sigmoidMat, linear_forward, exSigma, exX1, exW1, exB1,
      List.getLast?, List.dropLast, Except.toOption, Option.map,
      Finset.sum_range_one]
    norm_num
  · obtain ⟨y, probas, heq, _, _, _, hiff, _, _⟩ :=
      claim_C10_predict_threshold exSigma exX1 (exW1, exB1) []
    exact ⟨y, probas, heq, hiff 0 (by decide)⟩

/-- Batch `k` of the partition, for `k` below the number of full batches:
slice of width `mb` starting at shuffled column `k*mb`. -/
theorem init_mini_batches_getFull (X y : Mat) (perm : List ℕ) (mb k : ℕ)
    (hk : k < X.cols / mb) :
    (init_mini_batches X y perm mb)[k]?
      = some ((⟨X.rows, mb, fun i j => X.entry i (perm.getD (k * mb + j) 0)⟩ : Mat),
              (⟨1, mb, fun _ j => y.entry 0 (perm.getD (k * mb + j) 0)⟩ : Mat)) := by
  simp only [init_mini_batches]
  by_cases h : X.cols % mb = 0
  · rw [if_neg (not_not_intro h), List.getElem?_map, List.getElem?_range hk]
    rfl
  · rw [if_pos h, List.getElem?_append_left (by simpa using hk),
      List.getElem?_map, List.getElem?_range hk]
    rfl

/-- The remainder batch of the partition, present when `mb` does not divide
the number of examples: slice of the final `X.cols - (X.cols/mb)*mb`
shuffled columns. -/
theorem init_mini_batches_getRem (X y : Mat) (perm : List ℕ) (mb : ℕ)
    (h : X.cols % mb ≠ 0) :
    (init_mini_batches X y perm mb)[X.cols / mb]?
      = some ((⟨X.rows, X.cols - X.cols / mb * mb,
                fun i j => X.entry i (perm.getD (X.cols / mb * mb + j) 0)⟩ : Mat),
              (⟨1, X.cols - X.cols / mb * mb,
                fun _ j => y.entry 0 (perm.getD (X.cols / mb * mb + j) 0)⟩ : Mat)) := by
  simp only [init_mini_batches]
  rw [if_pos h, List.getElem?_append_right (by simp)]
  simp

/-- Length of the partition: the number of full batches plus one when a
remainder exists. -/
theorem init_mini_batches_length (X y : Mat) (perm : List ℕ) (mb : ℕ) :
    (init_mini_batches X y perm mb).length
      = if X.cols % mb = 0 then X.cols / mb else X.cols / mb + 1 := by
  simp only [init_mini_batches]
  by_cases h : X.cols % mb = 0
  · rw [if_neg (not_not_intro h), if_pos h]
    simp
  · rw [if_pos h, if_neg h]
    simp

/-- C5: the partition of `X` (numFeatures × m) and `Y` (1 × m) under a
permutation of the column indices and a positive batch size covers every
example exactly once: the batch count and widths are `m / mb` full batches
of width `mb` plus one remainder batch of width `m % mb` when it is
nonzero; position `t % mb` of batch `t / mb` holds exactly column
`perm[t]` of `X` paired with entry `perm[t]` of `Y`; and every original
column index is hit by exactly one position `t < m` (no duplicates, no
omissions). -/
theorem claim_C5_partition_exact_cover (X y : Mat) (perm : List ℕ) (mb m : ℕ)
    (hm : X.cols = m) (hmb : 0 < mb) (hperm : List.Perm perm (List.range m)) :
    ((init_mini_batches X y perm mb).length
        = if m % mb = 0 then m / mb else m / mb + 1)
    ∧ (∀ k, k < m / mb →
        ∃ bx, (init_mini_batches X y perm mb)[k]? = some bx
          ∧ bx.1.rows = X.rows ∧ bx.1.cols = mb ∧ bx.2.rows = 1 ∧ bx.2.cols = mb)
    ∧ (m % mb ≠ 0 →
        ∃ bx, (init_mini_batches X y perm mb)[m / mb]? = some bx
          ∧ bx.1.cols = m % mb ∧ bx.2.cols = m % mb)
    ∧ (∀ t, t < m →
        ∃ bx, (init_mini_batches X y perm mb)[t / mb]? = some bx
          ∧ t % mb < bx.1.cols
          ∧ (∀ i, bx.1.entry i (t % mb) = X.entry i (perm.getD t 0))
          ∧ bx.2.entry 0 (t % mb) = y.entry 0 (perm.getD t 0))
    ∧ (∀ c, c < m → ∃! t, t < m ∧ perm.getD t 0 = c) := by
  subst hm
  have hmodeq : X.cols / mb * mb + X.cols % mb = X.cols := by
    conv_lhs => rw [Nat.mul_comm]
    exact Nat.div_add_mod X.cols mb
  refine ⟨init_mini_batches_length X y perm mb, ?_, ?_, ?_, ?_⟩
  · intro k hk
    exact ⟨_, init_mini_batches_getFull X y perm mb k hk, rfl, rfl, rfl, rfl⟩
  · intro h
    refine ⟨_, init_mini_batches_getRem X y perm mb h, ?_, ?_⟩
    · show X.cols - X.cols / mb * mb = X.cols % mb
      omega
    · show X.cols - X.cols / mb * mb = X.cols % mb
      omega
  · intro t ht
    have htmodeq : t / mb * mb + t % mb = t := by
      conv_lhs => rw [Nat.mul_comm]
      exact Nat.div_add_mod t mb
    by_cases hcase : t / mb < X.cols / mb
    · refine ⟨_, init_mini_batches_getFull X y perm mb (t / mb) hcase,
        Nat.mod_lt t hmb, ?_, ?_⟩
      · intro i
        show X.entry i (perm.getD (t / mb * mb + t % mb) 0) = X.entry i (perm.getD t 0)
        rw [htmodeq]
      · show y.entry 0 (perm.getD (t / mb * mb + t % mb) 0) = y.entry 0 (perm.getD t 0)
        rw [htmodeq]
    · have hdiv : t / mb = X.cols / mb :=
        Nat.le_antisymm (Nat.div_le_div_right (le_of_lt ht)) (not_lt.mp hcase)
      have hmod : t % mb < X.cols % mb := by
        rw [hdiv] at htmodeq
        omega
      have hne : X.cols % mb ≠ 0 := by omega
      rw [hdiv]
      refine ⟨_, init_mini_batches_getRem X y perm mb hne, ?_, ?_, ?_⟩
      · show t % mb < X.cols - X.cols / mb * mb
        omega
      · intro i
        show X.entry i (perm.getD (X.cols / mb * mb + t % mb) 0)
            = X.entry i (perm.getD t 0)
        rw [← hdiv, htmodeq]
      · show y.entry 0 (perm.getD (X.cols / mb * mb + t % mb) 0)
            = y.entry 0 (perm.getD t 0)
        rw [← hdiv, htmodeq]
  · intro c hc
    have hlen : perm.length = X.cols := by
      rw [hperm.length_eq, List.length_range]
    have hmem : c ∈ perm := hperm.mem_iff.mpr (List.mem_range.mpr hc)
    have hnd : perm.Nodup := (hperm.nodup_iff).mpr (List.nodup_range _)
    obtain ⟨t, hts⟩ := List.mem_iff_getElem?.mp hmem
    have htlt : t < perm.length := by
      by_contra hcon
      rw [List.getElem?_eq_none (le_of_not_lt hcon)] at hts
      exact Option.noConfusion hts
    refine ⟨t, ⟨hlen ▸ htlt, ?_⟩, ?_⟩
    · rw [List.getD_eq_getElem?_getD, hts]
      rfl
    · rintro t' ⟨ht', he'⟩
      have ht'len : t' < perm.length := by
        rw [hlen]
        exact ht'
      have ht's : perm[t']? = some c := by
        rw [List.getD_eq_getElem?_getD, List.getElem?_eq_getElem ht'len] at he'
        rw [List.getElem?_eq_getElem ht'len]
        simpa using he'
      exact List.getElem?_inj ht'len hnd (ht's.trans hts.symm)

/-- Concrete 1×3 data for the C5 witness: columns `10, 20, 30`. -/
def exX5 : Mat := ⟨1, 3, fun _ j => 10 * ((j : ℚ) + 1)⟩

/-- Concrete 1×3 labels for the C5 witness: entries `5, 6, 7`. -/
def exY5 : Mat := ⟨1, 3, fun _ j => (5 : ℚ) + (j : ℚ)⟩

/-- Witness for C5 at `m = 3`, `mb = 2`, `perm = [2, 0, 1]`: two batches,
the remainder batch has one column, position 0 of batch 1 (global position
`t = 2`) holds column `perm[2] = 1` of `X` paired with label 1 of `Y`, and
column 0 is hit by exactly one position. -/
theorem claim_C5_partition_exact_cover_witness :
    ((init_mini_batches exX5 exY5 [2, 0, 1] 2).length = 2)
    ∧ (∃ bx, (init_mini_batches exX5 exY5 [2, 0, 1] 2)[1]? = some bx
        ∧ bx.1.cols = 1)
    ∧ (∃ bx, (init_mini_batches exX5 exY5 [2, 0, 1] 2)[1]? = some bx
        ∧ bx.1.entry 0 0 = exX5.entry 0 1 ∧ bx.2.entry 0 0 = exY5.entry 0 1)
    ∧ (∃! t, t < 3 ∧ ([2, 0, 1] : List ℕ).getD t 0 = 0) := by
  obtain ⟨hlen, hfull, hrem, hcontent, hcover⟩ :=
    claim_C5_partition_exact_cover exX5 exY5 [2, 0, 1] 2 3 rfl (by decide)
      (by decide)
  refine ⟨?_, ?_, ?_, hcover 0 (by decide)⟩
  · rw [hlen]
    decide
  · obtain ⟨bx, hb, h1, _⟩ := hrem (by decide)
    exact ⟨bx, hb, h1.trans rfl⟩
  · obtain ⟨bx, hb, _, hX, hY⟩ := hcontent 2 (by decide)
    exact ⟨bx, hb, hX 0, hY⟩

end NN
